import Mathlib

/-!
# Verification of the node-operation-validator admission webhook

Shallow embedding of the decision engine in
`internal/webhook/webhook.go` (the variant with the regex/allowed-reasons
policy, event recording and the node-agent identity class).  External
collaborators (Kubernetes client, decoder, event recorder, process
environment) are modelled as explicit inputs; the decision logic itself is
translated line by line from the Go source.
-/

namespace NodeOperationValidator

/-! ## Constants (from the `const` block of webhook.go) -/

/-- The Go constant `reasonAnnotation = "node.dana.io/reason"` (renamed here
because Lean identifiers ending in certain suffixes are avoided). -/
def reasonAnnotationKey : String := "node.dana.io/reason"

def serviceAccountUser : String := "system:serviceaccount:"

def nodeUser : String := "system:node:"

def systemAdminUser : String := "system:admin"

/-- `type Operation string` -/
abbrev Operation := String

def Create : Operation := "create"

def Delete : Operation := "delete"

def Cordon : Operation := "cordon"

def Uncordon : Operation := "uncordon"

def cmName : String := "node-operation-validator-config"

def cmNamespace : String := "node-operation-validator-system"

def reasonRegexPatternKey : String := "reasonRegexPattern"

def allowedReasonsKey : String := "allowedReasons"

def eventReason : String := "NodeOperation"

/-- `admissionv1.Delete` -/
def admissionDelete : String := "DELETE"

/-- `admissionv1.Create` -/
def admissionCreate : String := "CREATE"

/-! ## Models of the Go standard-library string functions used by the code -/

/-- Models `strings.Split(s, ",")`, the only separator used by the webhook:
splitting on commas, where the empty string yields a one-element list holding
the empty string (Go: `strings.Split("", ",") == []string{""}`). -/
def splitCommaChars : List Char → List (List Char)
  | [] => [[]]
  | ',' :: rest => [] :: splitCommaChars rest
  | c :: rest =>
    match splitCommaChars rest with
    | [] => [[c]]
    | g :: gs => (c :: g) :: gs

/-- `strings.Split(s, ",")` on `String`. -/
def goSplit (s : String) : List String :=
  (splitCommaChars s.data).map (fun l => String.mk l)

/-- Models `strings.EqualFold` for the ASCII reason strings this policy deals
with: case-insensitive equality by lower-casing every character. -/
def goEqualFold (a b : String) : Bool :=
  a.data.map Char.toLower == b.data.map Char.toLower

/-- Models `strings.HasPrefix`. -/
def goStartsWith (s p : String) : Bool :=
  List.isPrefixOf p.data s.data

/-! ## Responses and events -/

/-- The observable verdict of `admission.Response` as constructed by the three
constructors the code uses: `admission.Allowed`, `admission.Denied` and
`admission.Errored` (the latter carries an HTTP status code). -/
inductive Response where
  | allowed (message : String)
  | denied (message : String)
  | errored (code : Nat) (message : String)
deriving DecidableEq, Repr

/-- The event record produced by `record.EventRecorder.Event` in
`createNodeEvent`. -/
structure NodeEvent where
  eventType : String
  reason : String
  message : String
deriving DecidableEq, Repr

/-- `corev1.EventTypeNormal` -/
def eventTypeNormal : String := "Normal"

/-- `createNodeEvent`: builds the event emitted for an approved operation.
The Go code formats `reason` as `"%s: %s" eventReason operation` and the
message as `"%s: %s" user message`. -/
def createNodeEvent (message user : String) (operation : Operation) : NodeEvent :=
  { eventType := eventTypeNormal
    reason := eventReason ++ ": " ++ operation
    message := user ++ ": " ++ message }

/-! ## Identity classification -/

/-- `isServiceAccount`: prefix test against `serviceAccountUser`. -/
def isServiceAccount (user : String) : Bool :=
  goStartsWith user serviceAccountUser

/-- `isNode`: prefix test against `nodeUser`. -/
def isNode (user : String) : Bool :=
  goStartsWith user nodeUser

/-- `isForbiddenUser`: linear scan for exact membership. -/
def isForbiddenUser (userToCheck : String) (forbiddenUsers : List String) : Bool :=
  forbiddenUsers.any (fun user => user == userToCheck)

/-! ## Reason policy -/

/-- `reasonIsAllowed`: case-insensitive membership in the allowed list. -/
def reasonIsAllowed (allowedReasons : List String) (reason : String) : Bool :=
  allowedReasons.any (fun allowedReason => goEqualFold allowedReason reason)

/-- `isReasonFreetext`: deletions accept any non-empty reason. -/
def isReasonFreetext (operation : Operation) (reason : String) : Bool :=
  operation == Delete && reason != ""

/-! ## Model of `regexp.MatchString`

The webhook calls Go's `regexp.MatchString(pattern, reason)` and discards the
error, so a pattern that fails to compile behaves as "no match".  Go (RE2)
semantics modelled here:

* `MatchString` reports an *unanchored* match: whether any substring of the
  input matches the pattern (the empty pattern therefore matches every input,
  since every string contains the empty substring);
* a syntactically invalid pattern (for example an unbalanced parenthesis or a
  dangling repetition operator) is a compile error, i.e. "no match".

The parser below covers the RE2 fragment relevant to this development:
literal characters (alphanumerics and a few punctuation characters),
grouping `(...)`, alternation, and the star repetition, each with RE2's error
behaviour.  Patterns outside this fragment are conservatively treated as
unparseable; every concrete pattern appearing in the theorems below is inside
the fragment and agrees with RE2. -/

/-- Characters the parser accepts as literals. -/
def isLiteralChar (c : Char) : Bool :=
  c.isAlphanum || c == ' ' || c == '-' || c == '_' || c == ':' || c == '/' || c == ','

/-- Apply at most one postfix star (RE2 rejects `a**`); a star with no
preceding operand is a syntax error handled by `parseAtom`. -/
def parseStars :
    RegularExpression Char → List Char → Option (RegularExpression Char × List Char)
  | _, '*' :: '*' :: _ => none
  | r, '*' :: rest => some (RegularExpression.star r, rest)
  | r, cs => some (r, cs)

mutual

/-- Alternation level of the pattern grammar. -/
def parseAlt : Nat → List Char → Option (RegularExpression Char × List Char)
  | 0, _ => none
  | Nat.succ fuel, cs =>
    match parseConcat fuel cs with
    | none => none
    | some (r, rest) =>
      match rest with
      | '|' :: rest2 =>
        match parseAlt fuel rest2 with
        | none => none
        | some (r2, rest3) => some (RegularExpression.plus r r2, rest3)
      | _ => some (r, rest)

/-- Concatenation level: a possibly empty sequence of starred atoms. -/
def parseConcat : Nat → List Char → Option (RegularExpression Char × List Char)
  | 0, _ => none
  | Nat.succ fuel, cs =>
    match cs with
    | [] => some (1, [])
    | ')' :: _ => some (1, cs)
    | '|' :: _ => some (1, cs)
    | _ =>
      match parseAtom fuel cs with
      | none => none
      | some (r, rest) =>
        match parseStars r rest with
        | none => none
        | some (r2, rest2) =>
          match parseConcat fuel rest2 with
          | none => none
          | some (r3, rest3) => some (RegularExpression.comp r2 r3, rest3)

/-- Atom level: a parenthesised group or a literal character. -/
def parseAtom : Nat → List Char → Option (RegularExpression Char × List Char)
  | 0, _ => none
  | Nat.succ fuel, cs =>
    match cs with
    | [] => none
    | '(' :: rest =>
      match parseAlt fuel rest with
      | none => none
      | some (r, ')' :: rest2) => some (r, rest2)
      | some _ => none
    | c :: rest => if isLiteralChar c then some (RegularExpression.char c, rest) else none

end

/-- Compile a whole pattern; `none` models a `regexp.Compile` error. -/
def parseGoRegex (pattern : String) : Option (RegularExpression Char) :=
  match parseAlt (pattern.length * 3 + 3) pattern.data with
  | some (r, []) => some r
  | _ => none

/-- Whether `r` matches some prefix of `l` (including the empty prefix). -/
def matchesSomePrefix : RegularExpression Char → List Char → Bool
  | r, [] => r.matchEpsilon
  | r, a :: as => r.matchEpsilon || matchesSomePrefix (r.deriv a) as

/-- Whether `r` matches some substring of `l`: the unanchored search performed
by `regexp.MatchString`. -/
def containsMatch : RegularExpression Char → List Char → Bool
  | r, [] => matchesSomePrefix r []
  | r, a :: as => matchesSomePrefix r (a :: as) || containsMatch r as

/-- `reasonMatchesPattern`: `matched, _ := regexp.MatchString(pattern, reason)`
with the error discarded. -/
def reasonMatchesPattern (pattern reason : String) : Bool :=
  match parseGoRegex pattern with
  | none => false
  | some r => containsMatch r reason.data

/-! ## Decision functions -/

/-- `validateNoReason`: operations on which the reason annotation is forbidden
are approved exactly when the annotation is absent.  (The logger argument of
the Go function is dropped; logging has no effect on the verdict.) -/
def validateNoReason (doesReasonExist : Bool) (operation : Operation) (user : String) :
    Response :=
  if doesReasonExist then
    Response.denied ("Don't forget to remove the \"" ++ reasonAnnotationKey ++
      "\" annotation from the node")
  else
    Response.allowed "Operation approved"

/-- `userOnlyOperation`: the identity check followed by the reason policy.
Returns the `admission.Response` together with the list of events handed to
the recorder on this call (the Go function calls `createNodeEvent` exactly on
its allow paths).  The `node`, `recorder` and `log` arguments of the Go
function are dropped: the node only names the event's object and the logger
does not influence the verdict.  `fmt.Sprintf` formatting is modelled by
string concatenation, with `%q` rendered as surrounding double quotes and
`%v` of the allowed-reasons list rendered by `toString`. -/
def userOnlyOperation (operation : Operation) (user : String)
    (forbiddenUsers : List String) (reason : String) (isReasonRequired : Bool)
    (doesReasonExist : Bool) (allowedReasons : List String) (reasonPattern : String) :
    Response × List NodeEvent :=
  if isForbiddenUser user forbiddenUsers then
    (Response.denied ("\"" ++ user ++ "\" user is not allowed to " ++ operation ++
      " a node. Please log in with a LDAP privileged user. You must also add \"" ++
      reasonAnnotationKey ++ "\" annotation"), [])
  else if isServiceAccount user then
    (Response.allowed ("Service account \"" ++ user ++ "\" is allowed to do everything"),
      [createNodeEvent reason user operation])
  else if isNode user then
    (Response.allowed ("Node \"" ++ user ++ "\" is allowed to do everything"),
      [createNodeEvent reason user operation])
  else
    if isReasonRequired then
      if doesReasonExist then
        if reasonIsAllowed allowedReasons reason || reasonMatchesPattern reasonPattern reason
            || isReasonFreetext operation reason then
          (Response.allowed (operation ++ " operation has been approved"),
            [createNodeEvent reason user operation])
        else
          (Response.denied ("Invalid reason \"" ++ reason ++ "\". Allowed reasons: " ++
            toString allowedReasons), [])
      else
        (Response.denied ("You must add \"" ++ reasonAnnotationKey ++ "\" annotation"), [])
    else
      match validateNoReason doesReasonExist operation user with
      | Response.allowed m => (Response.allowed m, [createNodeEvent "" user operation])
      | response => (response, [])

/-! ## Requests, decoding and configuration -/

/-- The fields of a serialized `corev1.Node` that the webhook reads: the
`spec.unschedulable` flag and the value of the reason annotation (if the
serialized object carries it).  Kubernetes serializes `unschedulable` with
`omitempty`, so the field is present in the JSON exactly when it is `true`;
this is captured by `decodeRawInto` below. -/
structure RawNode where
  unschedulable : Bool
  reason? : Option String
deriving DecidableEq, Repr

/-- The value of a `corev1.Node` Go variable (only the fields the webhook
reads). -/
structure GoNodeVar where
  unschedulable : Bool
  reason? : Option String
deriving DecidableEq, Repr

/-- The zero value `corev1.Node{}`. -/
def emptyNodeVar : GoNodeVar := { unschedulable := false, reason? := none }

/-- Models `n.Decoder.DecodeRaw(raw, &node)` into an *existing* variable:
JSON unmarshalling assigns only the fields present in the serialized object
and merges annotation maps key by key, so a field absent from `raw` keeps the
value already stored in `node`.  In particular `spec.unschedulable`, being
`omitempty`, is only present (and then `true`) in a serialized cordoned node. -/
def decodeRawInto (raw : RawNode) (node : GoNodeVar) : GoNodeVar :=
  { unschedulable := if raw.unschedulable then true else node.unschedulable
    reason? :=
      match raw.reason? with
      | some r => some r
      | none => node.reason? }

/-- The parts of `admission.Request` the webhook reads.  `object?` and
`oldObject?` are the decoded payloads of `req.Object` / `req.OldObject`;
`none` models a payload on which `DecodeRaw` fails. -/
structure AdmissionRequest where
  operation : String
  username : String
  name : String
  object? : Option RawNode
  oldObject? : Option RawNode
deriving DecidableEq, Repr

/-- `getAllowedReasonsAndPattern`: fetch the ConfigMap (its `Data` entries are
passed in as an association list; `Except.error` models a failed
`Client.Get`), default each missing key to the empty string, and split the
allowed reasons on commas. -/
def getAllowedReasonsAndPattern (cmFetch : Except String (List (String × String))) :
    Except String (List String × String) :=
  match cmFetch with
  | Except.error e =>
    Except.error ("failed to fetch ConfigMap " ++ cmNamespace ++ "/" ++ cmName ++ ": " ++ e)
  | Except.ok data =>
    let allowedReasons := (List.lookup allowedReasonsKey data).getD ""
    let regexPattern := (List.lookup reasonRegexPatternKey data).getD ""
    Except.ok (goSplit allowedReasons, regexPattern)

/-- `Handle`: the webhook entry point.  `env` is the value of
`os.Getenv(ForbiddenUsersEnv)` (the empty string when the variable is unset)
and `cmFetch` the outcome of reading the configuration ConfigMap.  Returns
the response together with every event emitted while handling the request.

Two faithful details of the Go source are worth naming.  First, in the
`Create` branch the event operation is `Operation(req.Operation)`, i.e. the
literal admission verb `"CREATE"`, not the constant `Create`.  Second, in the
update (default) branch the source decodes `req.OldObject` and `req.Object`
into the *same* variable `node` and never writes to `oldNode`, so `oldNode`
keeps the zero value `corev1.Node{}`; the embedding reproduces this as
written. -/
def Handle (env : String) (cmFetch : Except String (List (String × String)))
    (req : AdmissionRequest) : Response × List NodeEvent :=
  match getAllowedReasonsAndPattern cmFetch with
  | Except.error e =>
    (Response.errored 500 ("failed to fetch allowed reasons: " ++ e), [])
  | Except.ok (allowedReasons, reasonRegex) =>
    if req.operation == admissionDelete then
      match req.oldObject? with
      | none =>
        (Response.errored 400 ("failed to decode node \"" ++ req.name ++ "\""), [])
      | some raw =>
        userOnlyOperation Delete req.username (goSplit env ++ [systemAdminUser])
          (((decodeRawInto raw emptyNodeVar).reason?).getD "")
          true ((decodeRawInto raw emptyNodeVar).reason?).isSome allowedReasons reasonRegex
    else if req.operation == admissionCreate then
      match req.object? with
      | none =>
        (Response.errored 400 ("failed to decode node \"" ++ req.name ++ "\""), [])
      | some raw =>
        match validateNoReason ((decodeRawInto raw emptyNodeVar).reason?).isSome Create
            req.username with
        | Response.allowed m =>
          (Response.allowed m, [createNodeEvent "" req.username req.operation])
        | response => (response, [])
    else
      match req.oldObject? with
      | none =>
        (Response.errored 400 ("failed to decode node \"" ++ req.name ++ "\""), [])
      | some oldRaw =>
        match req.object? with
        | none =>
          (Response.errored 400 ("failed to decode node \"" ++ req.name ++ "\""), [])
        | some newRaw =>
          if !emptyNodeVar.unschedulable &&
              (decodeRawInto newRaw (decodeRawInto oldRaw emptyNodeVar)).unschedulable then
            userOnlyOperation Cordon req.username (goSplit env ++ [systemAdminUser])
              (((decodeRawInto newRaw (decodeRawInto oldRaw emptyNodeVar)).reason?).getD "")
              true ((decodeRawInto newRaw (decodeRawInto oldRaw emptyNodeVar)).reason?).isSome
              allowedReasons reasonRegex
          else if emptyNodeVar.unschedulable &&
              !(decodeRawInto newRaw (decodeRawInto oldRaw emptyNodeVar)).unschedulable then
            userOnlyOperation Uncordon req.username (goSplit env ++ [systemAdminUser])
              (((decodeRawInto newRaw (decodeRawInto oldRaw emptyNodeVar)).reason?).getD "")
              false ((decodeRawInto newRaw (decodeRawInto oldRaw emptyNodeVar)).reason?).isSome
              allowedReasons reasonRegex
          else
            (Response.allowed "Node was updated", [])

/-- Whether an update request falls into the default ("node was updated")
inner branch of `Handle`: not a delete or create verb, both payloads decode,
and the cordon/uncordon conditions of the source (evaluated, as there, against
the never-populated `oldNode` zero value) are both false.  Used to state which
requests the code treats as no-op updates. -/
def isNoOpUpdate (req : AdmissionRequest) : Bool :=
  !(req.operation == admissionDelete) && !(req.operation == admissionCreate) &&
    (match req.oldObject?, req.object? with
     | some oldRaw, some newRaw =>
       !(!emptyNodeVar.unschedulable &&
           (decodeRawInto newRaw (decodeRawInto oldRaw emptyNodeVar)).unschedulable) &&
         !(emptyNodeVar.unschedulable &&
           !(decodeRawInto newRaw (decodeRawInto oldRaw emptyNodeVar)).unschedulable)
     | _, _ => false)

/-! ## Specification-side models (for refinement comparisons only)

These definitions follow the words of the specification, not the source; they
exist to be compared with the source-derived definitions above. -/

/-- The spec's `Operation` enumeration (§3), including `NoOp`. -/
inductive SpecOperation where
  | create | delete | cordon | uncordon | noOp
deriving DecidableEq, Repr

/-- Modelled from the spec (§4.1 Operation Classifier): an update is `Cordon`
exactly when the unschedulable flag flips false→true, `Uncordon` exactly when
it flips true→false, and `NoOp` otherwise — a function of both the before and
the after state. -/
def classifyUpdate_spec (before after : Bool) : SpecOperation :=
  if !before && after then SpecOperation.cordon
  else if before && !after then SpecOperation.uncordon
  else SpecOperation.noOp

/-- Modelled from the spec (§4.3): a case-sensitive match of the reason text
against `reasonPattern` interpreted as a regular expression *anchored by the
evaluator* over the whole reason text, where the empty pattern never
matches. -/
def reasonMatchesPattern_spec (pattern reason : String) : Bool :=
  match parseGoRegex pattern with
  | none => false
  | some r => if pattern == "" then false else r.rmatch reason.data

/-! ## Helper lemmas -/

theorem data_append (a b : String) : (a ++ b).data = a.data ++ b.data := by
  cases a
  cases b
  rfl

theorem eq_empty_of_data_eq_nil (a : String) (h : a.data = []) : a = "" := by
  cases a with
  | mk l =>
    have hl : l = [] := h
    subst hl
    decide

theorem append_ne_empty_left (a b : String) (h : a ≠ "") : a ++ b ≠ "" := by
  intro hc
  apply h
  have hd := congrArg String.data hc
  rw [data_append] at hd
  exact eq_empty_of_data_eq_nil a (List.append_eq_nil.mp hd).1

theorem append_ne_empty_right (a b : String) (h : b ≠ "") : a ++ b ≠ "" := by
  intro hc
  apply h
  have hd := congrArg String.data hc
  rw [data_append] at hd
  exact eq_empty_of_data_eq_nil b (List.append_eq_nil.mp hd).2

theorem rmatch_nil (r : RegularExpression Char) : r.rmatch [] = r.matchEpsilon := rfl

theorem rmatch_cons (r : RegularExpression Char) (a : Char) (as : List Char) :
    r.rmatch (a :: as) = (r.deriv a).rmatch as := rfl

/-- `matchesSomePrefix` is exactly "some prefix of `l` is in the language". -/
theorem matchesSomePrefix_iff (r : RegularExpression Char) (l : List Char) :
    matchesSomePrefix r l = true ↔ ∃ m rest, l = m ++ rest ∧ r.rmatch m = true := by
  induction l generalizing r with
  | nil =>
    simp only [matchesSomePrefix]
    constructor
    · intro h
      exact ⟨[], [], rfl, h⟩
    · rintro ⟨m, rest, hl, hm⟩
      obtain ⟨rfl, rfl⟩ := List.append_eq_nil.mp hl.symm
      exact hm
  | cons a as ih =>
    simp only [matchesSomePrefix, Bool.or_eq_true, ih]
    constructor
    · rintro (h | ⟨m, rest, hl, hm⟩)
      · exact ⟨[], a :: as, rfl, h⟩
      · refine ⟨a :: m, rest, ?_, hm⟩
        rw [List.cons_append, hl]
    · rintro ⟨m, rest, hl, hm⟩
      cases m with
      | nil =>
        left
        exact hm
      | cons b bs =>
        rw [List.cons_append] at hl
        injection hl with h1 h2
        subst h1
        right
        exact ⟨bs, rest, h2, hm⟩

/-- `containsMatch` is exactly "some substring of `l` is in the language":
the unanchored search semantics of `regexp.MatchString`. -/
theorem containsMatch_iff (r : RegularExpression Char) (l : List Char) :
    containsMatch r l = true ↔ ∃ pre m post, l = pre ++ m ++ post ∧ r.rmatch m = true := by
  induction l with
  | nil =>
    simp only [containsMatch, matchesSomePrefix]
    constructor
    · intro h
      exact ⟨[], [], [], rfl, h⟩
    · rintro ⟨pre, m, post, hl, hm⟩
      obtain ⟨h1, rfl⟩ := List.append_eq_nil.mp hl.symm
      obtain ⟨rfl, rfl⟩ := List.append_eq_nil.mp h1
      exact hm
  | cons a as ih =>
    simp only [containsMatch, Bool.or_eq_true, matchesSomePrefix_iff, ih]
    constructor
    · rintro (⟨m, rest, hl, hm⟩ | ⟨pre, m, post, hl, hm⟩)
      · exact ⟨[], m, rest, by simpa using hl, hm⟩
      · refine ⟨a :: pre, m, post, ?_, hm⟩
        rw [hl]
        simp [List.cons_append]
    · rintro ⟨pre, m, post, hl, hm⟩
      cases pre with
      | nil =>
        left
        exact ⟨m, post, by simpa using hl, hm⟩
      | cons b bs =>
        simp only [List.cons_append] at hl
        injection hl with h1 h2
        subst h1
        right
        exact ⟨bs, m, post, h2, hm⟩

/-- The empty pattern compiles to the empty-string regex. -/
theorem parseGoRegex_empty : parseGoRegex "" = some 1 := rfl

/-- The empty-string regex is found somewhere in every input. -/
theorem containsMatch_one (l : List Char) : containsMatch 1 l = true := by
  cases l with
  | nil => rfl
  | cons a as =>
    simp [containsMatch, matchesSomePrefix, RegularExpression.matchEpsilon]

/-- `regexp.MatchString("", s)` is true for every `s`. -/
theorem reasonMatchesPattern_empty (reason : String) :
    reasonMatchesPattern "" reason = true := by
  simp [reasonMatchesPattern, parseGoRegex_empty, containsMatch_one]

/-- Messages of `validateNoReason` are never empty. -/
theorem validateNoReason_message_ne_empty (doesReasonExist : Bool) (operation : Operation)
    (user : String) (m : String)
    (h : validateNoReason doesReasonExist operation user = Response.allowed m ∨
      validateNoReason doesReasonExist operation user = Response.denied m) :
    m ≠ "" := by
  unfold validateNoReason at h
  split at h <;> rcases h with h | h <;> simp only [Response.allowed.injEq,
    Response.denied.injEq, reduceCtorEq] at h <;> subst h
  · exact append_ne_empty_left _ _ (by decide)
  · decide

/-- Messages of `userOnlyOperation` are never empty. -/
theorem userOnlyOperation_message_ne_empty (operation : Operation) (user : String)
    (forbiddenUsers : List String) (reason : String) (isReasonRequired : Bool)
    (doesReasonExist : Bool) (allowedReasons : List String) (reasonPattern : String)
    (m : String)
    (h : (userOnlyOperation operation user forbiddenUsers reason isReasonRequired
        doesReasonExist allowedReasons reasonPattern).1 = Response.allowed m ∨
      (userOnlyOperation operation user forbiddenUsers reason isReasonRequired
        doesReasonExist allowedReasons reasonPattern).1 = Response.denied m) :
    m ≠ "" := by
  unfold userOnlyOperation at h
  repeat' split at h
  all_goals
    rcases h with h | h <;>
      try simp only [Response.allowed.injEq, Response.denied.injEq, reduceCtorEq] at h
  all_goals try subst h
  all_goals
    first
    | decide
    | ((repeat apply append_ne_empty_left)
       decide)
    | exact append_ne_empty_right _ _ (by decide)
    | exact validateNoReason_message_ne_empty _ _ _ _ (Or.inl (by assumption))
    | exact validateNoReason_message_ne_empty _ _ _ _ (Or.inr (by assumption))

/-- `userOnlyOperation` emits at most one event, and emits one exactly when it
allows the operation. -/
theorem userOnlyOperation_events (operation : Operation) (user : String)
    (forbiddenUsers : List String) (reason : String) (isReasonRequired : Bool)
    (doesReasonExist : Bool) (allowedReasons : List String) (reasonPattern : String) :
    (userOnlyOperation operation user forbiddenUsers reason isReasonRequired doesReasonExist
      allowedReasons reasonPattern).2.length ≤ 1 ∧
    ((userOnlyOperation operation user forbiddenUsers reason isReasonRequired doesReasonExist
        allowedReasons reasonPattern).2 ≠ [] ↔
      ∃ m, (userOnlyOperation operation user forbiddenUsers reason isReasonRequired
        doesReasonExist allowedReasons reasonPattern).1 = Response.allowed m) := by
  unfold userOnlyOperation validateNoReason
  repeat' split
  all_goals try simp
  all_goals rename_i hresp hdre
  all_goals exact (hresp "Operation approved" (by simp [hdre])).elim

theorem handle_events_le_one (env : String)
    (cmFetch : Except String (List (String × String))) (req : AdmissionRequest) :
    (Handle env cmFetch req).2.length ≤ 1 := by
  unfold Handle
  repeat' split
  all_goals
    first
    | simp
    | exact (userOnlyOperation_events _ _ _ _ _ _ _ _).1

theorem handle_events_iff_allowed (env : String)
    (cmFetch : Except String (List (String × String))) (req : AdmissionRequest) :
    (Handle env cmFetch req).2 ≠ [] ↔
      (∃ m, (Handle env cmFetch req).1 = Response.allowed m) ∧ isNoOpUpdate req = false := by
  rcases req with ⟨op, user, name, obj, oldObj⟩
  by_cases hdel : (op == admissionDelete) = true
  · rcases oldObj with _ | oldRaw
    · simp [Handle, isNoOpUpdate, hdel]
      cases getAllowedReasonsAndPattern cmFetch <;> simp
    · simp only [Handle, isNoOpUpdate, hdel]
      cases getAllowedReasonsAndPattern cmFetch with
      | error e => simp
      | ok pair =>
        rcases pair with ⟨ar, rr⟩
        simpa using (userOnlyOperation_events _ _ _ _ _ _ _ _).2
  · by_cases hcre : (op == admissionCreate) = true
    · rcases obj with _ | raw
      · simp [Handle, isNoOpUpdate, hdel, hcre]
        cases getAllowedReasonsAndPattern cmFetch <;> simp
      · simp only [Handle, isNoOpUpdate, hdel, hcre]
        cases getAllowedReasonsAndPattern cmFetch with
        | error e => simp
        | ok pair =>
          rcases pair with ⟨ar, rr⟩
          simp only [Bool.not_true, if_true, if_false]
          cases hv : validateNoReason ((decodeRawInto raw emptyNodeVar).reason?).isSome Create
              user <;> simp [hdel, hcre]
    · rcases oldObj with _ | oldRaw
      · simp [Handle, isNoOpUpdate, hdel, hcre]
        cases getAllowedReasonsAndPattern cmFetch <;> simp
      · rcases obj with _ | newRaw
        · simp [Handle, isNoOpUpdate, hdel, hcre]
          cases getAllowedReasonsAndPattern cmFetch <;> simp
        · simp only [Handle, isNoOpUpdate, hdel, hcre]
          cases getAllowedReasonsAndPattern cmFetch with
          | error e => simp
          | ok pair =>
            rcases pair with ⟨ar, rr⟩
            cases hu : (decodeRawInto newRaw (decodeRawInto oldRaw emptyNodeVar)).unschedulable
            · simp [emptyNodeVar, hu]
            · simp only [emptyNodeVar, hu]
              simpa using (userOnlyOperation_events _ _ _ _ _ _ _ _).2

theorem handle_noop (env : String) (data : List (String × String)) (req : AdmissionRequest)
    (h : isNoOpUpdate req = true) :
    Handle env (Except.ok data) req = (Response.allowed "Node was updated", []) := by
  rcases req with ⟨op, user, name, obj, oldObj⟩
  unfold isNoOpUpdate at h
  simp only [Bool.and_eq_true, Bool.not_eq_true'] at h
  obtain ⟨⟨hdel, hcre⟩, hrest⟩ := h
  rcases oldObj with _ | oldRaw
  · simp at hrest
  · rcases obj with _ | newRaw
    · simp at hrest
    · have hu : (decodeRawInto newRaw
          (decodeRawInto oldRaw { unschedulable := false, reason? := none })).unschedulable
          = false := by
        simpa [emptyNodeVar] using hrest
      simp [Handle, getAllowedReasonsAndPattern, hdel, hcre, emptyNodeVar, hu]

/-! ## Claim theorems -/

/-- C1 (code bug evidence): the spec's Operation Classifier derives the
operation from the flip of the unschedulable flag between the before and the
after state — an update from unschedulable to unschedulable is a `NoOp` and
always allowed.  The code never populates `oldNode` (it decodes both payloads
into `node`), so this request is routed into the Cordon branch and a regular
user without a reason annotation is denied. -/
theorem noop_update_misrouted_to_cordon :
    classifyUpdate_spec true true = SpecOperation.noOp ∧
    Handle "" (Except.ok [])
      { operation := "UPDATE", username := "alice", name := "node1",
        object? := some { unschedulable := true, reason? := none },
        oldObject? := some { unschedulable := true, reason? := none } }
      = (Response.denied ("You must add \"" ++ reasonAnnotationKey ++ "\" annotation"), []) :=
  ⟨rfl, rfl⟩

/-- C6: when the configuration fetch fails, `Handle` returns the
internal-error outcome (HTTP 500) for every request — an outcome distinct
from any denial or approval verdict. -/
theorem fetch_failure_internal_error (env e : String) (req : AdmissionRequest) :
    Handle env (Except.error e) req
      = (Response.errored 500 ("failed to fetch allowed reasons: " ++
          ("failed to fetch ConfigMap " ++ cmNamespace ++ "/" ++ cmName ++ ": " ++ e)), []) ∧
    (∀ c msg m, Response.errored c msg ≠ Response.denied m ∧
      Response.errored c msg ≠ Response.allowed m) := by
  refine ⟨rfl, ?_⟩
  intro c msg m
  exact ⟨by simp, by simp⟩

/-- C7: a reason pattern that fails to compile never aborts the evaluation:
`reasonMatchesPattern` simply returns `false` on it, and the acceptance
disjunction of `userOnlyOperation` collapses to the remaining two clauses
(allowed-list membership and the Delete free-text rule). -/
theorem malformed_pattern_never_fatal (pattern reason : String)
    (h : parseGoRegex pattern = none) :
    reasonMatchesPattern pattern reason = false ∧
    ∀ allowedReasons operation,
      (reasonIsAllowed allowedReasons reason || reasonMatchesPattern pattern reason ||
        isReasonFreetext operation reason)
        = (reasonIsAllowed allowedReasons reason || isReasonFreetext operation reason) := by
  have hm : reasonMatchesPattern pattern reason = false := by
    simp [reasonMatchesPattern, h]
  exact ⟨hm, fun allowedReasons operation => by rw [hm, Bool.or_false]⟩

theorem malformed_pattern_never_fatal_witness :
    parseGoRegex "(" = none ∧ reasonMatchesPattern "(" "Testing" = false :=
  ⟨rfl, (malformed_pattern_never_fatal "(" "Testing" rfl).1⟩

/-- C8: `Handle` emits at most one audit event; it emits one exactly when the
verdict is an approval and the request is not a no-op update; and a no-op
update (with a readable configuration) is always allowed with no event,
whatever the identity and reason. -/
theorem audit_iff_allowed_non_noop (env : String)
    (cmFetch : Except String (List (String × String))) (req : AdmissionRequest) :
    (Handle env cmFetch req).2.length ≤ 1 ∧
    ((Handle env cmFetch req).2 ≠ [] ↔
      (∃ m, (Handle env cmFetch req).1 = Response.allowed m) ∧ isNoOpUpdate req = false) ∧
    (∀ data, cmFetch = Except.ok data → isNoOpUpdate req = true →
      Handle env cmFetch req = (Response.allowed "Node was updated", [])) :=
  ⟨handle_events_le_one env cmFetch req, handle_events_iff_allowed env cmFetch req,
    fun data hcm hnoop => by rw [hcm]; exact handle_noop env data req hnoop⟩

theorem audit_iff_allowed_non_noop_witness :
    Handle "" (Except.ok [])
      { operation := "UPDATE", username := "u", name := "n",
        object? := some { unschedulable := false, reason? := none },
        oldObject? := some { unschedulable := false, reason? := none } }
      = (Response.allowed "Node was updated", []) :=
  (audit_iff_allowed_non_noop "" (Except.ok [])
    { operation := "UPDATE", username := "u", name := "n",
      object? := some { unschedulable := false, reason? := none },
      oldObject? := some { unschedulable := false, reason? := none } }).2.2 [] rfl rfl

/-- C9: every allow or deny verdict produced by `Handle`, on every path,
carries a non-empty message. -/
theorem verdict_message_nonempty (env : String)
    (cmFetch : Except String (List (String × String))) (req : AdmissionRequest) (m : String)
    (h : (Handle env cmFetch req).1 = Response.allowed m ∨
      (Handle env cmFetch req).1 = Response.denied m) :
    m ≠ "" := by
  unfold Handle at h
  repeat' split at h
  all_goals
    first
    | (rcases h with h | h <;> simp at h)
    | exact userOnlyOperation_message_ne_empty _ _ _ _ _ _ _ _ _ h
  all_goals try subst h
  all_goals
    first
    | decide
    | exact validateNoReason_message_ne_empty _ _ _ _ (Or.inl (by assumption))
    | exact validateNoReason_message_ne_empty _ _ _ _ (Or.inr (by assumption))

theorem verdict_message_nonempty_witness : ("Operation approved" : String) ≠ "" :=
  verdict_message_nonempty "" (Except.ok [])
    { operation := "CREATE", username := "u", name := "n",
      object? := some { unschedulable := false, reason? := none }, oldObject? := none }
    "Operation approved" (Or.inl rfl)

/-- C10: an unset or empty forbidden-users environment variable splits into a
list containing the empty string, so the empty username is classified as
forbidden and every operation routed through the identity check is denied. -/
theorem empty_env_empty_user_forbidden :
    goSplit "" = [""] ∧
    isForbiddenUser "" (goSplit "" ++ [systemAdminUser]) = true ∧
    (∀ operation reason isReasonRequired doesReasonExist allowedReasons reasonPattern,
      (userOnlyOperation operation "" (goSplit "" ++ [systemAdminUser]) reason isReasonRequired
        doesReasonExist allowedReasons reasonPattern).1
        = Response.denied ("\"" ++ "" ++ "\" user is not allowed to " ++ operation ++
          " a node. Please log in with a LDAP privileged user. You must also add \"" ++
          reasonAnnotationKey ++ "\" annotation")) ∧
    (Handle "" (Except.ok [])
      { operation := "DELETE", username := "", name := "n",
        object? := none, oldObject? := some { unschedulable := false, reason? := none } }).1
      = Response.denied ("\"" ++ "" ++ "\" user is not allowed to " ++ Delete ++
          " a node. Please log in with a LDAP privileged user. You must also add \"" ++
          reasonAnnotationKey ++ "\" annotation") := by
  refine ⟨by decide, by decide, ?_, rfl⟩
  intro operation reason isReasonRequired doesReasonExist allowedReasons reasonPattern
  simp [userOnlyOperation,
    show isForbiddenUser "" (goSplit "" ++ [systemAdminUser]) = true from by decide]

/-- C2 counterexample: a node-agent principal outside the forbidden set that
creates a node carrying the reason annotation is denied — the Create branch
never consults the identity, so trusted identities do not bypass the
no-reason rule there. -/
theorem create_by_node_agent_with_reason_denied :
    isNode "system:node:node1" = true ∧
    isForbiddenUser "system:node:node1" (goSplit "" ++ [systemAdminUser]) = false ∧
    Handle "" (Except.ok [])
      { operation := "CREATE", username := "system:node:node1", name := "node1",
        object? := some { unschedulable := false, reason? := some "x" }, oldObject? := none }
      = (Response.denied ("Don't forget to remove the \"" ++ reasonAnnotationKey ++
          "\" annotation from the node"), []) :=
  ⟨by decide, by decide, rfl⟩

/-- C2 (amended): a service-account or node-agent principal not in the
forbidden set is allowed unconditionally — with an audit event — on every
operation routed through the identity check (Delete, Cordon, Uncordon),
regardless of reason presence or content; Create is not routed through the
identity check and is allowed exactly when the reason annotation is absent,
whatever the identity. -/
theorem trusted_identity_bypass (operation : Operation) (user : String)
    (forbiddenUsers : List String) (reason : String) (isReasonRequired doesReasonExist : Bool)
    (allowedReasons : List String) (reasonPattern : String)
    (hforb : isForbiddenUser user forbiddenUsers = false)
    (htrust : isServiceAccount user = true ∨ isNode user = true) :
    (∃ m, userOnlyOperation operation user forbiddenUsers reason isReasonRequired
        doesReasonExist allowedReasons reasonPattern
      = (Response.allowed m, [createNodeEvent reason user operation])) ∧
    (∀ env data nm raw oldObj,
      (Handle env (Except.ok data)
        { operation := "CREATE", username := user, name := nm,
          object? := some raw, oldObject? := oldObj }).1
        = Response.allowed "Operation approved" ↔ raw.reason? = none) := by
  have h1 : ("CREATE" == admissionDelete) = false := by decide
  have h2 : ("CREATE" == admissionCreate) = true := by decide
  constructor
  · rcases htrust with h | h
    · exact ⟨"Service account \"" ++ user ++ "\" is allowed to do everything",
        by simp [userOnlyOperation, hforb, h]⟩
    · by_cases hsa : isServiceAccount user = true
      · exact ⟨"Service account \"" ++ user ++ "\" is allowed to do everything",
          by simp [userOnlyOperation, hforb, hsa]⟩
      · simp only [Bool.not_eq_true] at hsa
        exact ⟨"Node \"" ++ user ++ "\" is allowed to do everything",
          by simp [userOnlyOperation, hforb, hsa, h]⟩
  · intro env data nm raw oldObj
    cases hr : raw.reason? with
    | none =>
      simp [Handle, getAllowedReasonsAndPattern, validateNoReason, decodeRawInto,
        emptyNodeVar, h1, h2, hr]
    | some r =>
      simp [Handle, getAllowedReasonsAndPattern, validateNoReason, decodeRawInto,
        emptyNodeVar, h1, h2, hr]

theorem trusted_identity_bypass_witness :
    ∃ m, userOnlyOperation Cordon "system:node:node1" (goSplit "" ++ [systemAdminUser]) ""
        true false [] ""
      = (Response.allowed m, [createNodeEvent "" "system:node:node1" Cordon]) :=
  (trusted_identity_bypass Cordon "system:node:node1" (goSplit "" ++ [systemAdminUser]) ""
    true false [] "" (by decide) (Or.inr (by decide))).1

/-- C3 counterexample: the built-in superuser — always a member of the
forbidden set — creates a node without a reason annotation and is allowed:
the Create branch never consults the forbidden-user list. -/
theorem forbidden_create_without_reason_allowed :
    isForbiddenUser systemAdminUser (goSplit "" ++ [systemAdminUser]) = true ∧
    Handle "" (Except.ok [])
      { operation := "CREATE", username := "system:admin", name := "node1",
        object? := some { unschedulable := false, reason? := none }, oldObject? := none }
      = (Response.allowed "Operation approved",
          [createNodeEvent "" "system:admin" "CREATE"]) :=
  ⟨by decide, rfl⟩

/-- C3 (amended): every principal in the forbidden set (which always contains
the built-in superuser, appended to whatever the environment supplies) is
denied unconditionally, with no audit event, on every operation routed
through the identity check (Delete, Cordon, Uncordon), regardless of reason
presence or content; Create is not routed through that check. -/
theorem forbidden_user_denied (operation : Operation) (user : String)
    (forbiddenUsers : List String) (reason : String) (isReasonRequired doesReasonExist : Bool)
    (allowedReasons : List String) (reasonPattern : String)
    (hforb : isForbiddenUser user forbiddenUsers = true) :
    userOnlyOperation operation user forbiddenUsers reason isReasonRequired doesReasonExist
        allowedReasons reasonPattern
      = (Response.denied ("\"" ++ user ++ "\" user is not allowed to " ++ operation ++
          " a node. Please log in with a LDAP privileged user. You must also add \"" ++
          reasonAnnotationKey ++ "\" annotation"), []) ∧
    (∀ env, systemAdminUser ∈ goSplit env ++ [systemAdminUser]) := by
  refine ⟨?_, fun env => by simp⟩
  simp [userOnlyOperation, hforb]

theorem forbidden_user_denied_witness :
    userOnlyOperation Delete systemAdminUser (goSplit "" ++ [systemAdminUser]) "Testing"
        true true [] ""
      = (Response.denied ("\"" ++ systemAdminUser ++ "\" user is not allowed to " ++ Delete ++
          " a node. Please log in with a LDAP privileged user. You must also add \"" ++
          reasonAnnotationKey ++ "\" annotation"), []) :=
  (forbidden_user_denied Delete systemAdminUser (goSplit "" ++ [systemAdminUser]) "Testing"
    true true [] "" (by decide)).1

/-- C4 counterexample: the code's matcher disagrees with the spec's described
matcher (anchored whole-text, empty pattern never matches) at concrete
inputs: the empty pattern accepts every reason text, and pattern `a` accepts
reason `ba` through an unanchored substring match. -/
theorem pattern_check_unanchored_counterexample :
    reasonMatchesPattern "" "for fun" = true ∧
    reasonMatchesPattern_spec "" "for fun" = false ∧
    reasonMatchesPattern "a" "ba" = true ∧
    reasonMatchesPattern_spec "a" "ba" = false :=
  ⟨by decide, rfl, by decide, by decide⟩

/-- C4 (amended): `reasonMatchesPattern` performs a case-sensitive
*unanchored* regular-expression search: it accepts exactly when some
substring of the reason text lies in the pattern's language; consequently the
empty pattern accepts every reason text. -/
theorem pattern_search_unanchored :
    (∀ reason, reasonMatchesPattern "" reason = true) ∧
    (∀ pattern reason, reasonMatchesPattern pattern reason = true ↔
      ∃ re, parseGoRegex pattern = some re ∧
        ∃ pre m post, reason.data = pre ++ m ++ post ∧ m ∈ re.matches') := by
  refine ⟨reasonMatchesPattern_empty, ?_⟩
  intro pattern reason
  unfold reasonMatchesPattern
  cases hp : parseGoRegex pattern with
  | none => simp
  | some r =>
    rw [containsMatch_iff]
    constructor
    · rintro ⟨pre, m, post, hl, hm⟩
      exact ⟨r, rfl, pre, m, post, hl, (RegularExpression.rmatch_iff_matches' r m).mp hm⟩
    · rintro ⟨re, hre, pre, m, post, hl, hm⟩
      injection hre with hre
      subst hre
      exact ⟨pre, m, post, hl, (RegularExpression.rmatch_iff_matches' _ m).mpr hm⟩

/-- C5 counterexample: with an empty allowed-reasons list and an empty
pattern, a regular user's Cordon with reason annotation `for fun` is
*allowed* (the empty pattern matches every reason), where the claim says it
must be denied. -/
theorem empty_config_cordon_allowed :
    getAllowedReasonsAndPattern
        (Except.ok [(allowedReasonsKey, ""), (reasonRegexPatternKey, "")])
      = Except.ok ([""], "") ∧
    Handle "" (Except.ok [(allowedReasonsKey, ""), (reasonRegexPatternKey, "")])
      { operation := "UPDATE", username := "user", name := "node1",
        object? := some { unschedulable := true, reason? := some "for fun" },
        oldObject? := some { unschedulable := false, reason? := none } }
      = (Response.allowed (Cordon ++ " operation has been approved"),
          [createNodeEvent "for fun" "user" Cordon]) :=
  ⟨rfl, rfl⟩

/-- C5 (amended): with empty `allowedReasons` and empty `reasonPattern`, a
regular user's Delete with a present reason annotation is allowed (the claim
said so only for non-empty text; the empty pattern in fact accepts every
text), and a regular user's Cordon with any present reason annotation is
*also* allowed, because the empty pattern matches every reason text. -/
theorem empty_config_behavior (user : String) (forbiddenUsers : List String) (reason : String)
    (hforb : isForbiddenUser user forbiddenUsers = false)
    (hsa : isServiceAccount user = false) (hnode : isNode user = false) :
    (userOnlyOperation Delete user forbiddenUsers reason true true (goSplit "") "").1
      = Response.allowed (Delete ++ " operation has been approved") ∧
    (userOnlyOperation Cordon user forbiddenUsers reason true true (goSplit "") "").1
      = Response.allowed (Cordon ++ " operation has been approved") := by
  have hm := reasonMatchesPattern_empty reason
  constructor <;> simp [userOnlyOperation, hforb, hsa, hnode, hm]

theorem empty_config_behavior_witness :
    (userOnlyOperation Cordon "user" (goSplit "" ++ [systemAdminUser]) "for fun"
        true true (goSplit "") "").1
      = Response.allowed (Cordon ++ " operation has been approved") :=
  (empty_config_behavior "user" (goSplit "" ++ [systemAdminUser]) "for fun"
    (by decide) (by decide) (by decide)).2

end NodeOperationValidator
